import Mathlib

/-!
# A verification development for `gribgrab`

This file gives a shallow embedding, in Lean 4, of the core logic of the
`gribgrab` package (`src/gribgrab/gribgrab.py`): grib2 index-line parsing
(`IdxField`), index collections with byte-range derivation and regex
filtering (`IdxCollection`), the step/URL planner and download orchestration
of `NomadsDownloader`, and the `retry` decorator.  Theorems at the end of
the file settle the specification claims against these definitions.

Text is modelled as `List Char`.  Python machine behaviour is modelled
faithfully where the embedded code depends on it: `str.split`, `str.strip`
(ASCII whitespace), `int(...)` (sign, surrounding whitespace, underscore
digit separators), `datetime.strptime` with format code sequence Y-m-d-H
(CPython's per-directive regexes, with backtracking and a full-consumption
check, followed by date validation), and `datetime.strftime` on the fixed
format strings used by the source (glibc-style unpadded year).
-/

namespace Gribgrab

/-- Text, modelled as a list of characters. -/
abbrev Str := List Char

/-- Coerce a Lean string literal to our text model. -/
def lc (s : String) : Str := s.data

/-! ## Python text primitives -/

/-- Python `str.split(sep)` for a single-character separator: splits on every
occurrence, keeping empty chunks; the result is always non-empty. -/
def splitOnChar (sep : Char) : Str → List Str
  | [] => [[]]
  | c :: cs =>
    if c = sep then [] :: splitOnChar sep cs
    else
      match splitOnChar sep cs with
      | [] => [[c]]
      | t :: ts => (c :: t) :: ts

/-- The ASCII whitespace characters stripped by Python `str.strip()`
(the source only ever strips newline-terminated ASCII index lines). -/
def isPySpace (c : Char) : Bool :=
  c = ' ' || c = '\t' || c = '\n' || c = '\r' || c = '\x0b' || c = '\x0c'

/-- Python `str.strip()`: drop whitespace from both ends. -/
def pyStrip (s : Str) : Str :=
  ((s.dropWhile isPySpace).reverse.dropWhile isPySpace).reverse

/-- Python `sep.join(parts)` for a single-character separator. -/
def joinSep (sep : Char) : List Str → Str
  | [] => []
  | [s] => s
  | s :: rest => s ++ sep :: joinSep sep rest

/-! ## Decimal numbers: Python `int(...)` and `str(int)` -/

/-- Numeric value of a decimal digit character. -/
def digitVal (c : Char) : Nat := c.toNat - '0'.toNat

/-- Tail of a Python integer literal after its leading digit: digits with
single underscores allowed only between digits (CPython's grammar). -/
def pyDigitsAux (acc : Nat) : Str → Option Nat
  | [] => some acc
  | c :: cs =>
    if c = '_' then
      match cs with
      | c2 :: cs2 =>
        if c2.isDigit then pyDigitsAux (acc * 10 + digitVal c2) cs2 else none
      | [] => none
    else if c.isDigit then pyDigitsAux (acc * 10 + digitVal c) cs else none

/-- A non-empty digit string (underscore separators allowed between digits),
as accepted by Python `int(...)` after sign handling. -/
def pyDigits : Str → Option Nat
  | [] => none
  | c :: cs => if c.isDigit then pyDigitsAux (digitVal c) cs else none

/-- The sign-and-digits body of a Python integer literal. -/
def pySigned : Str → Option Int
  | [] => none
  | c :: rest =>
    if c = '+' then (pyDigits rest).map (fun n => (n : Int))
    else if c = '-' then (pyDigits rest).map (fun n => -(n : Int))
    else (pyDigits (c :: rest)).map (fun n => (n : Int))

/-- Python `int(s)`: strip surrounding whitespace, optional sign, then a
digit string.  `none` models the `ValueError` raised on anything else. -/
def pyInt (s : Str) : Option Int :=
  pySigned (pyStrip s)

/-- Canonical decimal digits of `n`, with enough fuel (structural recursion
so that the kernel can evaluate it; any fuel above the digit count of `n`
gives the same result). -/
def natReprCore : Nat → Nat → Str
  | 0, _ => []
  | fuel + 1, n =>
    if n < 10 then [Nat.digitChar n]
    else natReprCore fuel (n / 10) ++ [Nat.digitChar (n % 10)]

/-- Python `str(n)` for a natural number: canonical decimal digits. -/
def natRepr (n : Nat) : Str := natReprCore (n + 1) n

/-- Python `str(i)` for an integer: minus sign followed by digits, or digits. -/
def intRepr (i : Int) : Str :=
  if i < 0 then '-' :: natRepr i.natAbs else natRepr i.toNat

/-! ## `datetime`: the slice used by the source -/

/-- The slice of a Python `datetime` the source uses: year, month, day, hour
(minutes and seconds are always zero for parsed index reference times). -/
structure PyDateTime where
  year : Nat
  month : Nat
  day : Nat
  hour : Nat
deriving DecidableEq, Repr

/-- Gregorian leap-year rule, as used by Python `datetime`. -/
def isLeap (y : Nat) : Bool :=
  y % 4 = 0 && (y % 100 != 0 || y % 400 = 0)

/-- Number of days in a month, as validated by the `datetime` constructor. -/
def daysInMonth (y m : Nat) : Nat :=
  if m = 2 then (if isLeap y then 29 else 28)
  else if m = 4 || m = 6 || m = 9 || m = 11 then 30
  else 31

/-- CPython `_strptime` directive `%Y`: exactly four digits. -/
def yAlt : Str → List (Nat × Str)
  | c1 :: c2 :: c3 :: c4 :: rest =>
    if c1.isDigit && c2.isDigit && c3.isDigit && c4.isDigit then
      [(((digitVal c1 * 10 + digitVal c2) * 10 + digitVal c3) * 10 + digitVal c4, rest)]
    else []
  | _ => []

/-- CPython `_strptime` directive `%m`, regex alternation
one-or-two-digit month 1..12, two-digit candidates first. -/
def mAlts : Str → List (Nat × Str)
  | c1 :: c2 :: rest =>
    (if c1 = '1' && '0' ≤ c2 && c2 ≤ '2' then [(10 + digitVal c2, rest)] else [])
      ++ (if c1 = '0' && '1' ≤ c2 && c2 ≤ '9' then [(digitVal c2, rest)] else [])
      ++ (if '1' ≤ c1 && c1 ≤ '9' then [(digitVal c1, c2 :: rest)] else [])
  | [c1] => if '1' ≤ c1 && c1 ≤ '9' then [(digitVal c1, [])] else []
  | [] => []

/-- CPython `_strptime` directive `%d`, regex alternation
one-or-two-digit day 1..31, two-digit candidates first. -/
def dAlts : Str → List (Nat × Str)
  | c1 :: c2 :: rest =>
    (if c1 = '3' && '0' ≤ c2 && c2 ≤ '1' then [(30 + digitVal c2, rest)] else [])
      ++ (if ('1' ≤ c1 && c1 ≤ '2') && c2.isDigit then
            [(digitVal c1 * 10 + digitVal c2, rest)] else [])
      ++ (if c1 = '0' && '1' ≤ c2 && c2 ≤ '9' then [(digitVal c2, rest)] else [])
      ++ (if '1' ≤ c1 && c1 ≤ '9' then [(digitVal c1, c2 :: rest)] else [])
  | [c1] => if '1' ≤ c1 && c1 ≤ '9' then [(digitVal c1, [])] else []
  | [] => []

/-- CPython `_strptime` directive `%H`, regex alternation
one-or-two-digit hour 0..23, two-digit candidates first. -/
def hAlts : Str → List (Nat × Str)
  | c1 :: c2 :: rest =>
    (if c1 = '2' && '0' ≤ c2 && c2 ≤ '3' then [(20 + digitVal c2, rest)] else [])
      ++ (if ('0' ≤ c1 && c1 ≤ '1') && c2.isDigit then
            [(digitVal c1 * 10 + digitVal c2, rest)] else [])
      ++ (if c1.isDigit then [(digitVal c1, c2 :: rest)] else [])
  | [c1] => if c1.isDigit then [(digitVal c1, [])] else []
  | [] => []

/-- The syntactic regex match of pattern `%Y%m%d%H` against the whole input,
with regex-engine backtracking order and strptime's full-consumption check. -/
def ymdhMatch (s : Str) : Option (Nat × Nat × Nat × Nat) :=
  (yAlt s).findSome? fun yr =>
    (mAlts yr.2).findSome? fun mr =>
      (dAlts mr.2).findSome? fun dr =>
        (hAlts dr.2).findSome? fun hr =>
          if hr.2 = [] then some (yr.1, mr.1, dr.1, hr.1) else none

/-- `datetime.strptime(s, '%Y%m%d%H')`: first syntactic regex match, then
validation by the `datetime` constructor (year ≥ 1, day within the month).
`none` models the `ValueError` raised on mismatch or invalid dates. -/
def strptimeYmdH (s : Str) : Option PyDateTime :=
  match ymdhMatch s with
  | none => none
  | some (y, m, d, h) =>
    if 1 ≤ y ∧ 1 ≤ d ∧ d ≤ daysInMonth y m then some ⟨y, m, d, h⟩ else none

/-- Two-digit zero-padded decimal, as printed by `%m`, `%d`, `%H`. -/
def pad2 (n : Nat) : Str := if n < 10 then '0' :: natRepr n else natRepr n

/-- Three-digit zero-padded decimal, as used by the `{step:03d}` formatter. -/
def pad3 (n : Nat) : Str :=
  if n < 10 then '0' :: '0' :: natRepr n
  else if n < 100 then '0' :: natRepr n
  else natRepr n

/-- `reftime.strftime('d=%Y%m%d%H')` (glibc `%Y` prints the year unpadded;
for the four-digit years produced by parsing this is four digits). -/
def fmtRefTime (t : PyDateTime) : Str :=
  lc "d=" ++ natRepr t.year ++ pad2 t.month ++ pad2 t.day ++ pad2 t.hour

/-- `cycle.strftime('gfs.%Y%m%d%H/')`, the per-cycle directory name. -/
def fmtCycleDir (t : PyDateTime) : Str :=
  lc "gfs." ++ natRepr t.year ++ pad2 t.month ++ pad2 t.day ++ pad2 t.hour ++ ['/']

/-! ## `IdxField` — one grib2 index line -/

/-- An `IdxField` represents a single grib2 file index line
(`class IdxField`, fields as assigned by its constructor). -/
structure IdxField where
  index : Int
  bytes_start : Int
  reftime : PyDateTime
  varname : Str
  level : Str
  interval : Str
deriving DecidableEq, Repr

/-- `IdxField.__init__`: strip the line, split on `:`, convert the first two
fields with `int`, parse the reference time from the chunk between the first
and second `=` of field 2 with `strptime('%Y%m%d%H')`, and keep fields 3-5
verbatim.  `none` models any exception the constructor raises (`IndexError`
on a missing field or missing `=`, `ValueError` from `int` or `strptime`). -/
def mkIdxField (idx_line : Str) : Option IdxField :=
  let parts := splitOnChar ':' (pyStrip idx_line)
  match parts.get? 0, parts.get? 1, parts.get? 2,
        parts.get? 3, parts.get? 4, parts.get? 5 with
  | some f0, some f1, some f2, some f3, some f4, some f5 =>
    match pyInt f0, pyInt f1 with
    | some index, some bytes_start =>
      match (splitOnChar '=' f2).get? 1 with
      | some seg =>
        match strptimeYmdH seg with
        | some reftime => some ⟨index, bytes_start, reftime, f3, f4, f5⟩
        | none => none
      | none => none
    | _, _ => none
  | _, _, _, _, _, _ => none

/-- `IdxField.__str__`: colon-join the six fields (re-serializing the numeric
and reference-time fields) and append a trailing colon. -/
def idxStr (f : IdxField) : Str :=
  joinSep ':' [intRepr f.index, intRepr f.bytes_start, fmtRefTime f.reftime,
               f.varname, f.level, f.interval] ++ [':']

/-! ## Regular expressions

The source uses `re.compile(pattern).match(line)`, i.e. a match anchored at
the start of the line that need not extend to its end.  We embed the regex
fragment the patterns of this code base use (literals, `.`, grouping,
alternation, `*`, `+`) and decide matching by Brzozowski derivatives. -/

/-- Abstract syntax of the regex fragment used by the source's patterns. -/
inductive Regex where
  | emp : Regex
  | eps : Regex
  | chr : Char → Regex
  | dot : Regex
  | seq : Regex → Regex → Regex
  | alt : Regex → Regex → Regex
  | star : Regex → Regex
deriving DecidableEq, Repr

/-- `r+` is `r` followed by `r*`. -/
def rplus (r : Regex) : Regex := .seq r (.star r)

/-- A literal string as a regex. -/
def rlit (s : Str) : Regex := s.foldr (fun c r => .seq (.chr c) r) .eps

/-- Does the regex accept the empty string? -/
def nullable : Regex → Bool
  | .emp => false
  | .eps => true
  | .chr _ => false
  | .dot => false
  | .seq a b => nullable a && nullable b
  | .alt a b => nullable a || nullable b
  | .star _ => true

/-- Brzozowski derivative.  `.` matches any character except a newline,
as in Python `re` without `DOTALL`. -/
def deriv : Regex → Char → Regex
  | .emp, _ => .emp
  | .eps, _ => .emp
  | .chr c, x => if x = c then .eps else .emp
  | .dot, x => if x = '\n' then .emp else .eps
  | .seq a b, x =>
    if nullable a then .alt (.seq (deriv a x) b) (deriv b x)
    else .seq (deriv a x) b
  | .alt a b, x => .alt (deriv a x) (deriv b x)
  | .star a, x => .seq (deriv a x) (.star a)

/-- `re.match` semantics: the regex matches some (possibly empty) initial
segment of the text. -/
def rMatch (r : Regex) : Str → Bool
  | [] => nullable r
  | c :: cs => nullable r || rMatch (deriv r c) cs

/-- `re.fullmatch` semantics: the regex matches the whole text
(not what the source uses; stated for contrast). -/
def rFull (r : Regex) : Str → Bool
  | [] => nullable r
  | c :: cs => rFull (deriv r c) cs

/-- `re.search` semantics: the regex matches starting at some position
(not what the source uses; stated for contrast). -/
def rSearch (r : Regex) : Str → Bool
  | [] => nullable r
  | c :: cs => rMatch r (c :: cs) || rSearch r cs

/-! ## `IdxCollection` -/

/-- An `IdxCollection` is a group of `IdxField`s: the contents of a grib2
index file.  `i_to_idx` models the Python dict keyed by message ordinal,
as an insertion-ordered association list with unique keys (Python dicts
preserve insertion order; re-assigning an existing key keeps its position).
The source also keeps a reverse dict `idx_to_i`, which no method ever
reads; it is omitted here. -/
structure IdxCollection where
  i_to_idx : List (Int × IdxField)
deriving DecidableEq, Repr

/-- `IdxCollection()`: an empty collection. -/
def IdxCollection.empty : IdxCollection := ⟨[]⟩

/-- Python dict assignment `d[k] = v`: replace in place if the key is
present, otherwise append. -/
def dictInsert (k : Int) (v : IdxField) : List (Int × IdxField) → List (Int × IdxField)
  | [] => [(k, v)]
  | (k0, v0) :: rest =>
    if k0 = k then (k, v) :: rest else (k0, v0) :: dictInsert k v rest

/-- Python dict lookup `d[k]`, `none` modelling `KeyError`. -/
def dictGet (k : Int) : List (Int × IdxField) → Option IdxField
  | [] => none
  | (k0, v0) :: rest => if k0 = k then some v0 else dictGet k rest

/-- `IdxCollection.add_idx`: store the field under its ordinal. -/
def IdxCollection.add_idx (c : IdxCollection) (idx : IdxField) : IdxCollection :=
  ⟨dictInsert idx.index idx c.i_to_idx⟩

/-- `dict.values()` in insertion order. -/
def IdxCollection.values (c : IdxCollection) : List IdxField :=
  c.i_to_idx.map (·.2)

/-- `IdxCollection.byterange`: start of the message, and the predecessor of
the successor message's start when a record with the next ordinal is
present; `none` models the `''` (open-ended) upper bound assigned when the
lookup raises `KeyError`.  A pure function of the collection and the field:
it never fails and never modifies the collection. -/
def IdxCollection.byterange (c : IdxCollection) (idx : IdxField) : Int × Option Int :=
  match dictGet (idx.index + 1) c.i_to_idx with
  | some nxt => (idx.bytes_start, some (nxt.bytes_start - 1))
  | none => (idx.bytes_start, none)

/-- `IdxCollection.filter`: the fields whose canonical textual form the
compiled regex `match`es (anchored at the start), in `values()` order. -/
def IdxCollection.filterIdx (c : IdxCollection) (regex : Regex) : List IdxField :=
  c.values.filter (fun idx => rMatch regex (idxStr idx))

/-! ## `NomadsDownloader` — step planner

`NomadsDownloader.STEPS` is a class attribute mapping each resolution to an
`itertools.chain` object.  A chain is a one-shot iterator created once when
the class body runs: `list(...)` consumes it, and every later construction
at the same resolution sees the already-exhausted iterator.  We model this
shared mutable class state explicitly as a `StepsState`: the list of
elements each resolution's chain can still yield. -/

/-- The supported resolutions (`VALID_RESOLUTIONS = [0.25, 0.5, 1, 2.5]`);
all four float values are exactly representable, so an enumeration is a
faithful model of the dict keys. -/
inductive Res where
  | r0p25 : Res
  | r0p50 : Res
  | r1p00 : Res
  | r2p50 : Res
deriving DecidableEq, Repr

/-- `'{0:0.2f}'.format(resolution).replace('.', 'p')`. -/
def resStr : Res → Str
  | .r0p25 => lc "0p25"
  | .r0p50 => lc "0p50"
  | .r1p00 => lc "1p00"
  | .r2p50 => lc "2p50"

/-- Python `range(start, stop, step)` for a positive step. -/
def rangeStep (start stop step : Nat) : List Nat :=
  (List.range ((stop - start + step - 1) / step)).map (fun k => start + k * step)

/-- The elements yielded by each resolution's fresh `chain` in the `STEPS`
class attribute. -/
def baseSchedule : Res → List Nat
  | .r0p25 => rangeStep 0 121 1 ++ rangeStep 123 241 3 ++ rangeStep 252 385 12
  | .r0p50 => rangeStep 0 241 3 ++ rangeStep 252 385 12
  | .r1p00 => rangeStep 0 241 3 ++ rangeStep 252 385 12
  | .r2p50 => rangeStep 0 241 3 ++ rangeStep 252 385 12

/-- The mutable state of the class-level `STEPS` chains: what each
resolution's iterator can still yield. -/
def StepsState := Res → List Nat

/-- The state right after the class body runs: every chain is fresh. -/
def stepsFresh : StepsState := baseSchedule

/-- The constructed downloader: every attribute `__init__` assigns. -/
structure NomadsDownloader where
  regexes : List Regex
  cycle : PyDateTime
  horizon : Option Nat
  resolution : Res
  min_step : Option Nat
  base_url : Str
  res_str : Str
  steps : List Nat
  grib_files : List Str
  idx_files : List Str
deriving Repr

/-- `'http://{}/{}/{}'.format(SERVER, BASE_URL, cycle.strftime('gfs.%Y%m%d%H/'))`
(note the doubled slashes: `BASE_URL` begins and ends with `/`). -/
def baseUrl (cycle : PyDateTime) : Str :=
  lc "http://www.ftp.ncep.noaa.gov//data/nccf/com/gfs/prod//" ++ fmtCycleDir cycle

/-- `FILE_PATTERN.format(cycle_hr=..., res_str=..., step=...)`:
`'gfs.t{cycle_hr:02d}z.pgrb2.{res_str}.f{step:03d}'`. -/
def filePattern (cycle_hr : Nat) (res_str : Str) (step : Nat) : Str :=
  lc "gfs.t" ++ pad2 cycle_hr ++ lc "z.pgrb2." ++ res_str ++ lc ".f" ++ pad3 step

/-- `urljoin(self.base_url, name)` for the relative file names this planner
produces: CPython's `urljoin` drops the final segment of the base path,
filters interior empty segments (collapsing the doubled slashes of
`base_url`), and appends the relative name. -/
def urljoinNomads (cycle : PyDateTime) (name : Str) : Str :=
  lc "http://www.ftp.ncep.noaa.gov/data/nccf/com/gfs/prod/" ++ fmtCycleDir cycle ++ name

/-- `NomadsDownloader.__init__`, threading the shared `STEPS` state:
`list(type(self).STEPS[self.resolution])` drains the class-level chain (the
returned state maps this resolution to `[]`), then the optional
`min_step`-divisibility and `horizon` filters are applied in that order.
URLs come from `urljoin` on the computed base (see `urljoinNomads`).
The resolution-validity check always passes for `Res` values.
(Constructing with `min_step` equal to zero would raise `ZeroDivisionError`
in Python whenever the drained list is non-empty; theorems about configured
`min_step` therefore assume it is positive.) -/
def mkDownloader (st : StepsState) (cycle : PyDateTime) (horizon : Option Nat)
    (resolution : Res) (min_step : Option Nat) : NomadsDownloader × StepsState :=
  let raw := st resolution
  let st1 : StepsState := fun r => if r = resolution then [] else st r
  let steps1 := match min_step with
    | some m => raw.filter (fun i => i % m = 0)
    | none => raw
  let steps2 := match horizon with
    | some h => steps1.filter (fun i => i ≤ h)
    | none => steps1
  let rs := resStr resolution
  let gribs := steps2.map (fun i => urljoinNomads cycle (filePattern cycle.hour rs i))
  (⟨[], cycle, horizon, resolution, min_step, baseUrl cycle, rs, steps2,
     gribs, gribs.map (· ++ lc ".idx")⟩, st1)

/-- `NomadsDownloader.add_regex`. -/
def NomadsDownloader.add_regex (d : NomadsDownloader) (r : Regex) : NomadsDownloader :=
  { d with regexes := d.regexes ++ [r] }

/-! ## The `retry` decorator

`retry` wraps a function with a closure variable `attempts_remaining`,
initially 5, shared by all calls to the wrapped function.  Each call loops:
a successful attempt resets the counter to 5 and returns; a failing attempt
decrements it, and when it reaches 0 the counter is reset to 5 and the last
error is re-raised.  The underlying function is modelled as a stream of
attempt outcomes `f : Nat → Except E A` (attempt `k` yields `f k`). -/

/-- One call of the wrapped function, from attempt index `k` with
`attempts_remaining = s`: returns the call's outcome and the value of
`attempts_remaining` after the call.  (`s = 0` at entry is unreachable:
every exit path resets the counter to 5, and it starts at 5.) -/
def retryAux {E A : Type} (f : Nat → Except E A) (k : Nat) : Nat → Except E A × Nat
  | 0 =>
    match f k with
    | .ok v => (.ok v, 5)
    | .error e => (.error e, 5)
  | s + 1 =>
    match f k with
    | .ok v => (.ok v, 5)
    | .error e => if s = 0 then (.error e, 5) else retryAux f (k + 1) s

/-- A call of the `retry`-wrapped function from the canonical entry state
(`attempts_remaining = 5`, which every previous call re-established). -/
def retryCall {E A : Type} (f : Nat → Except E A) : Except E A × Nat :=
  retryAux f 0 5

/-! ## Download orchestration

`exists()` HEAD-probes every index URL in order, stopping at the first
non-200 status; `download()` first calls `exists()`, then rejects the
conflicting naming options, then for each step fetches and parses the index
text, concatenates the byte ranges of every configured regex's matches,
and issues one ranged GET.  We record the network interactions of a run as
a trace of actions, and model errors with `Except`.  Local file writes and
output naming are not network-visible and are outside this model; GET
transport failures are modelled separately by `retry`. -/

/-- One network interaction of a download run. -/
inductive NetAction where
  | head : Str → NetAction
  | getIdx : Str → NetAction
  | get : Str → Str → NetAction
deriving DecidableEq, Repr

/-- Errors a download run can surface. -/
inductive DlError where
  | dataNotAvailable : DlError
  | valueError : DlError
  | malformedIndex : DlError
deriving DecidableEq, Repr

/-- The HEAD probes `exists()` issues, in order with early exit, and its
return value. -/
def probeAll (net : Str → Nat) : List Str → List NetAction × Bool
  | [] => ([], true)
  | u :: us =>
    if net u = 200 then
      let r := probeAll net us
      (.head u :: r.1, r.2)
    else ([.head u], false)

/-- `NomadsDownloader.exists`: every index URL answers the HEAD probe
with status 200 (the loop returns `False` at the first failure). -/
def existsCheck (net : Str → Nat) (d : NomadsDownloader) : Bool :=
  (probeAll net d.idx_files).2

/-- `NomadsDownloader._get_idx_data`: parse each fetched index line into a
fresh collection; `none` models the exception a malformed line raises. -/
def getIdxData (ls : List Str) : Option IdxCollection :=
  ls.foldlM (fun c l => (mkIdxField l).map c.add_idx) IdxCollection.empty

/-- The `Range` header value built by `download`: `bytes=` then
`start-end` entries (an open end serializes as the empty string). -/
def byteHeader (ranges : List (Int × Option Int)) : Str :=
  lc "bytes=" ++
    joinSep ','
      (ranges.map (fun br =>
        intRepr br.1 ++ ['-'] ++ (match br.2 with | some e => intRepr e | none => [])))

/-- `urlparse(url).path` for the absolute URLs this planner builds:
everything after the scheme and host. -/
def urlPath (u : Str) : Str := u.drop (lc "http://www.ftp.ncep.noaa.gov").length

/-- The per-step loop of `download`: for each index/grib URL pair, fetch the
index text (`urlopen`), parse it, concatenate the byte ranges of every
regex's matches (in regex order, then match order), and issue one ranged
GET against the grib URL's path. -/
def downloadSteps (regexes : List Regex) (idxLines : Str → List Str) :
    List (Str × Str) → List NetAction × Except DlError Unit
  | [] => ([], .ok ())
  | (idxF, gribF) :: rest =>
    match getIdxData (idxLines idxF) with
    | none => ([.getIdx idxF], .error .malformedIndex)
    | some coll =>
      let ranges := regexes.flatMap (fun r => (coll.filterIdx r).map coll.byterange)
      let rec2 := downloadSteps regexes idxLines rest
      (.getIdx idxF :: .get (urlPath gribF) (byteHeader ranges) :: rec2.1, rec2.2)

/-- `NomadsDownloader.download`: call `exists()` (raising
`DataNotAvailableError` when it returns false), then reject the
configuration in which both `filename` and `file_template` are given
(`ValueError`), then run the per-step loop.  Returns the trace of network
actions in program order together with the outcome. -/
def downloadRun (d : NomadsDownloader) (net : Str → Nat) (idxLines : Str → List Str)
    (filename file_template : Option Str) : List NetAction × Except DlError Unit :=
  let probe := probeAll net d.idx_files
  if !probe.2 then (probe.1, .error .dataNotAvailable)
  else if filename.isSome && file_template.isSome then (probe.1, .error .valueError)
  else
    let rest := downloadSteps d.regexes idxLines (d.idx_files.zip d.grib_files)
    (probe.1 ++ rest.1, rest.2)

/-! ## Concrete fixtures

The three index records used by the specification's worked examples
(ordinals 1, 2, 3 with byte offsets 0, 73573, 263118). -/

/-- Index line of the GUST record. -/
def lineGust : Str := lc "1:0:d=1995103000:GUST:surface:165 hour fcst:"

/-- Index line of the MSLET record. -/
def lineMslet : Str := lc "2:73573:d=1995103000:MSLET:mean sea level:165 hour fcst:"

/-- Index line of the PRES record. -/
def linePres : Str := lc "3:263118:d=1995103000:PRES:surface:165 hour fcst:"

/-- The GUST record, as parsed from `lineGust`. -/
def idxGust : IdxField :=
  ⟨1, 0, ⟨1995, 10, 30, 0⟩, lc "GUST", lc "surface", lc "165 hour fcst"⟩

/-- The MSLET record, as parsed from `lineMslet`. -/
def idxMslet : IdxField :=
  ⟨2, 73573, ⟨1995, 10, 30, 0⟩, lc "MSLET", lc "mean sea level", lc "165 hour fcst"⟩

/-- The PRES record, as parsed from `linePres`. -/
def idxPres : IdxField :=
  ⟨3, 263118, ⟨1995, 10, 30, 0⟩, lc "PRES", lc "surface", lc "165 hour fcst"⟩

/-- The collection holding the three example records, inserted in order. -/
def collGMP : IdxCollection :=
  ((IdxCollection.empty.add_idx idxGust).add_idx idxMslet).add_idx idxPres

/-- The regex `.*` . -/
def dotStar : Regex := .star .dot

/-- The pattern `.*PRES.*` of the specification's filter example. -/
def patPres : Regex := .seq dotStar (.seq (rlit (lc "PRES")) dotStar)

/-- The pattern `.*(PRES|GUST)+:.*` of the specification's filter example. -/
def patPresGust : Regex :=
  .seq dotStar
    (.seq (rplus (.alt (rlit (lc "PRES")) (rlit (lc "GUST")))) (.seq (.chr ':') dotStar))

/-- A two-step plan (resolution 0.5, horizon 3): steps 0 and 3, hence two
index URLs to probe. -/
def dlTwoSteps : NomadsDownloader :=
  (mkDownloader stepsFresh ⟨2026, 10, 12, 0⟩ (some 3) .r0p50 none).1

/-- A network where only the first of the two index URLs exists: the other
`N-1 = 1` probes would succeed. -/
def netFirstOnly : Str → Nat :=
  fun u => if u = dlTwoSteps.idx_files.getD 0 [] then 200 else 404

/-- A one-step plan (resolution 0.5, horizon 0): a single index URL. -/
def dlOneStep : NomadsDownloader :=
  (mkDownloader stepsFresh ⟨2026, 10, 12, 0⟩ (some 0) .r0p50 none).1

/-- The numeric value of a list of decimal digit characters, most
significant first. -/
def digitsVal (s : Str) : Nat :=
  s.foldl (fun a c => a * 10 + digitVal c) 0

/-- The canonical well-formed index line with the given field values:
six colon-joined fields with a trailing colon, numeric fields in canonical
decimal, reference time in the fixed `d=YYYYMMDDHH` encoding. -/
def mkWfLine (i b : Int) (t : PyDateTime) (v l iv : Str) : Str :=
  joinSep ':' [intRepr i, intRepr b, fmtRefTime t, v, l, iv] ++ [':']

/-- Is this field the fixed `d=` + 10-digit `YYYYMMDDHH` encoding of a
valid reference time?  (On an all-digit 10-character payload the strptime
pattern is exactly the fixed-width 4-2-2-2 read.) -/
def isFixedRefTime (s : Str) : Bool :=
  match s with
  | 'd' :: '=' :: ds =>
    ds.length = 10 && ds.all (·.isDigit) && (strptimeYmdH ds).isSome
  | _ => false

/-- The three fixture records really are the parses of their lines. -/
theorem mk_fixture_lines :
    mkIdxField lineGust = some idxGust ∧ mkIdxField lineMslet = some idxMslet ∧
      mkIdxField linePres = some idxPres := by
  decide

/-! ## Properties of the text primitives -/

/-- Splitting a chunk that does not contain the separator yields the chunk
alone. -/
theorem splitOnChar_no_sep (sep : Char) :
    ∀ (a : Str), sep ∉ a → splitOnChar sep a = [a] := by
  intro a
  induction a with
  | nil => intro _; rfl
  | cons c cs ih =>
    intro h
    have hc : ¬(c = sep) := fun hcc => h (hcc ▸ List.mem_cons_self c cs)
    have hcs : sep ∉ cs := fun hm => h (List.mem_cons_of_mem c hm)
    simp only [splitOnChar, if_neg hc, ih hcs]

/-- Splitting peels off a leading separator-free chunk. -/
theorem splitOnChar_append (sep : Char) :
    ∀ (a rest : Str), sep ∉ a →
      splitOnChar sep (a ++ sep :: rest) = a :: splitOnChar sep rest := by
  intro a rest
  induction a with
  | nil => simp [splitOnChar]
  | cons c cs ih =>
    intro h
    have hc : ¬(c = sep) := fun hcc => h (hcc ▸ List.mem_cons_self c cs)
    have hcs : sep ∉ cs := fun hm => h (List.mem_cons_of_mem c hm)
    simp only [List.cons_append, splitOnChar, if_neg hc, List.append_eq, ih hcs]

/-- The characters `Nat.digitChar` produces for digits: decimal digits that
read back to their value and are none of the separator characters the
index-line grammar cares about. -/
theorem digitChar_facts (k : Nat) (hk : k < 10) :
    (Nat.digitChar k).isDigit = true ∧ digitVal (Nat.digitChar k) = k ∧
      isPySpace (Nat.digitChar k) = false ∧ Nat.digitChar k ≠ ':' ∧
      Nat.digitChar k ≠ '=' ∧ Nat.digitChar k ≠ '_' ∧
      Nat.digitChar k ≠ '+' ∧ Nat.digitChar k ≠ '-' := by
  interval_cases k <;> exact ⟨rfl, rfl, rfl, by decide, by decide, by decide,
    by decide, by decide⟩

/-- `natReprCore` does not depend on the fuel, as long as there is enough. -/
theorem natReprCore_fuel (n : Nat) : ∀ (f1 f2 : Nat), n < f1 → n < f2 →
    natReprCore f1 n = natReprCore f2 n := by
  induction n using Nat.strong_induction_on with
  | _ n ih =>
    intro f1 f2 h1 h2
    match f1, f2 with
    | g1 + 1, g2 + 1 =>
      by_cases h10 : n < 10
      · simp [natReprCore, h10]
      · have hdiv : n / 10 < n := Nat.div_lt_self (by omega) (by omega)
        simp only [natReprCore, if_neg h10]
        rw [ih (n / 10) hdiv g1 g2 (by omega) (by omega)]

/-- One-digit unfolding of `natRepr`. -/
theorem natRepr_lt10 (n : Nat) (h : n < 10) : natRepr n = [Nat.digitChar n] := by
  simp [natRepr, natReprCore, h]

/-- Multi-digit unfolding of `natRepr`. -/
theorem natRepr_ge10 (n : Nat) (h : 10 ≤ n) :
    natRepr n = natRepr (n / 10) ++ [Nat.digitChar (n % 10)] := by
  have hdiv : n / 10 < n := Nat.div_lt_self (by omega) (by omega)
  show natReprCore (n + 1) n = natReprCore (n / 10 + 1) (n / 10) ++ _
  rw [natReprCore, if_neg (by omega), natReprCore_fuel (n / 10) n (n / 10 + 1)
    (by omega) (by omega)]

/-- Every character of `natRepr n` is a produced digit character. -/
theorem natRepr_mem (n : Nat) :
    ∀ c ∈ natRepr n, ∃ k, k < 10 ∧ c = Nat.digitChar k := by
  induction n using Nat.strong_induction_on with
  | _ n ih =>
    by_cases h : n < 10
    · rw [natRepr_lt10 n h]
      intro c hc
      simp only [List.mem_singleton] at hc
      exact ⟨n, h, hc⟩
    · rw [natRepr_ge10 n (by omega)]
      intro c hc
      rcases List.mem_append.1 hc with h1 | h2
      · exact ih (n / 10) (Nat.div_lt_self (by omega) (by omega)) c h1
      · simp only [List.mem_singleton] at h2
        exact ⟨n % 10, Nat.mod_lt _ (by omega), h2⟩

/-- `natRepr n` starts with a digit character. -/
theorem natRepr_head (n : Nat) :
    ∃ k tail, k < 10 ∧ natRepr n = Nat.digitChar k :: tail := by
  induction n using Nat.strong_induction_on with
  | _ n ih =>
    by_cases h : n < 10
    · exact ⟨n, [], h, natRepr_lt10 n h⟩
    · obtain ⟨k, tail, hk, heq⟩ := ih (n / 10) (Nat.div_lt_self (by omega) (by omega))
      exact ⟨k, tail ++ [Nat.digitChar (n % 10)], hk, by
        rw [natRepr_ge10 n (by omega), heq]; rfl⟩

/-- Reading the canonical decimal digits of `n` back gives `n`. -/
theorem digitsVal_natRepr (n : Nat) : digitsVal (natRepr n) = n := by
  induction n using Nat.strong_induction_on with
  | _ n ih =>
    by_cases h : n < 10
    · rw [natRepr_lt10 n h]
      show 0 * 10 + digitVal (Nat.digitChar n) = n
      rw [(digitChar_facts n h).2.1]
      omega
    · have hdiv : n / 10 < n := Nat.div_lt_self (by omega) (by omega)
      rw [natRepr_ge10 n (by omega)]
      unfold digitsVal
      rw [List.foldl_append]
      show (digitsVal (natRepr (n / 10))) * 10 + digitVal (Nat.digitChar (n % 10)) = n
      rw [ih (n / 10) hdiv, (digitChar_facts (n % 10) (Nat.mod_lt _ (by omega))).2.1]
      omega

/-- On a pure digit string the literal tail parser folds the digits onto
the accumulator. -/
theorem pyDigitsAux_digits (ds : Str)
    (h : ∀ c ∈ ds, ∃ k, k < 10 ∧ c = Nat.digitChar k) :
    ∀ (acc : Nat),
      pyDigitsAux acc ds = some (ds.foldl (fun a c => a * 10 + digitVal c) acc) := by
  induction ds with
  | nil => intro acc; rfl
  | cons c cs ih =>
    intro acc
    obtain ⟨k, hk, rfl⟩ := h c (List.mem_cons_self c cs)
    obtain ⟨hdig, _, _, _, _, hunder, _, _⟩ := digitChar_facts k hk
    show pyDigitsAux acc (Nat.digitChar k :: cs) = _
    rw [pyDigitsAux.eq_def]
    simp only [if_neg hunder, if_pos hdig]
    exact ih (fun c hc => h c (List.mem_cons_of_mem _ hc)) _

/-- A string without whitespace characters strips to itself. -/
theorem pyStrip_eq_self_of (s : Str) (h : ∀ c ∈ s, isPySpace c = false) :
    pyStrip s = s := by
  unfold pyStrip
  have h1 : s.dropWhile isPySpace = s := by
    cases s with
    | nil => rfl
    | cons c cs => simp [List.dropWhile_cons, h c (List.mem_cons_self c cs)]
  rw [h1]
  have h2 : s.reverse.dropWhile isPySpace = s.reverse := by
    cases hr : s.reverse with
    | nil => rfl
    | cons c cs =>
      have hc : c ∈ s := by
        rw [← List.mem_reverse, hr]
        exact List.mem_cons_self c cs
      simp [List.dropWhile_cons, h c hc]
  rw [h2, List.reverse_reverse]

/-- A string with a non-whitespace first character and a non-whitespace
last character strips to itself, and stripping also removes a trailing
newline. -/
theorem pyStrip_ends (c0 : Char) (mid : Str) (c1 : Char)
    (h0 : isPySpace c0 = false) (h1 : isPySpace c1 = false) :
    pyStrip (c0 :: mid ++ [c1]) = c0 :: mid ++ [c1] ∧
      pyStrip ((c0 :: mid ++ [c1]) ++ ['\n']) = c0 :: mid ++ [c1] := by
  have hrev : (c0 :: mid ++ [c1]).reverse = c1 :: (mid.reverse ++ [c0]) := by
    simp
  constructor
  · unfold pyStrip
    have hfront : List.dropWhile isPySpace (c0 :: (mid ++ [c1])) =
        c0 :: (mid ++ [c1]) := by
      simp [List.dropWhile_cons, h0]
    rw [show (c0 :: mid ++ [c1]) = c0 :: (mid ++ [c1]) from rfl, hfront]
    rw [show c0 :: (mid ++ [c1]) = c0 :: mid ++ [c1] from rfl, hrev]
    simp only [List.dropWhile_cons, h1, Bool.false_eq_true, if_false]
    rw [← hrev, List.reverse_reverse]
  · unfold pyStrip
    have hfront : List.dropWhile isPySpace ((c0 :: mid ++ [c1]) ++ ['\n']) =
        (c0 :: mid ++ [c1]) ++ ['\n'] := by
      simp [List.dropWhile_cons, h0]
    rw [hfront]
    have hrev2 : ((c0 :: mid ++ [c1]) ++ ['\n']).reverse =
        '\n' :: (c0 :: mid ++ [c1]).reverse := by
      simp
    rw [hrev2]
    have hdrop : List.dropWhile isPySpace ('\n' :: (c0 :: mid ++ [c1]).reverse) =
        List.dropWhile isPySpace ((c0 :: mid ++ [c1]).reverse) := by
      rw [List.dropWhile_cons]
      norm_num [isPySpace]
    rw [hdrop, hrev]
    simp only [List.dropWhile_cons, h1, Bool.false_eq_true, if_false]
    rw [← hrev, List.reverse_reverse]

/-- Python `int` parses the canonical digits of `n` back to `n`. -/
theorem pyDigits_natRepr (n : Nat) : pyDigits (natRepr n) = some n := by
  obtain ⟨k, tail, hk, heq⟩ := natRepr_head n
  have hmem := natRepr_mem n
  rw [heq] at hmem ⊢
  rw [pyDigits, if_pos (digitChar_facts k hk).1]
  rw [pyDigitsAux_digits tail (fun c hc => hmem c (List.mem_cons_of_mem _ hc))]
  have : digitsVal (Nat.digitChar k :: tail) = n := heq ▸ digitsVal_natRepr n
  unfold digitsVal at this
  simp only [List.foldl_cons, Nat.zero_mul, Nat.zero_add] at this
  rw [this]

/-- No character of `natRepr n` is whitespace. -/
theorem natRepr_no_space (n : Nat) : ∀ c ∈ natRepr n, isPySpace c = false :=
  fun c hc => by
    obtain ⟨k, hk, rfl⟩ := natRepr_mem n c hc
    exact (digitChar_facts k hk).2.2.1

/-- Unfolding of the sign parser on a non-empty string. -/
theorem pySigned_cons (c : Char) (rest : Str) :
    pySigned (c :: rest) =
      if c = '+' then (pyDigits rest).map (fun n => (n : Int))
      else if c = '-' then (pyDigits rest).map (fun n => -(n : Int))
      else (pyDigits (c :: rest)).map (fun n => (n : Int)) := rfl

/-- Python `int` parses the canonical decimal form of any integer back to
that integer: `int(str(i)) == i`. -/
theorem pyInt_intRepr (i : Int) : pyInt (intRepr i) = some i := by
  by_cases hi : i < 0
  · have hir : intRepr i = '-' :: natRepr i.natAbs := by
      unfold intRepr
      rw [if_pos hi]
    have hstrip : pyStrip ('-' :: natRepr i.natAbs) = '-' :: natRepr i.natAbs := by
      refine pyStrip_eq_self_of _ (fun c hc => ?_)
      rcases List.mem_cons.1 hc with rfl | hc2
      · decide
      · exact natRepr_no_space _ c hc2
    unfold pyInt
    rw [hir, hstrip, pySigned_cons,
      if_neg (by decide : ¬('-' = '+')), if_pos rfl, pyDigits_natRepr]
    have hval : -(i.natAbs : Int) = i := by omega
    show some (-(i.natAbs : Int)) = some i
    rw [hval]
  · have hir : intRepr i = natRepr i.toNat := by
      unfold intRepr
      rw [if_neg hi]
    obtain ⟨k, tail, hk, heq⟩ := natRepr_head i.toNat
    obtain ⟨_, _, _, _, _, _, hplus, hminus⟩ := digitChar_facts k hk
    have hstrip : pyStrip (natRepr i.toNat) = natRepr i.toNat :=
      pyStrip_eq_self_of _ (natRepr_no_space _)
    unfold pyInt
    rw [hir, hstrip, heq, pySigned_cons, if_neg hplus, if_neg hminus, ← heq,
      pyDigits_natRepr]
    have hval : ((i.toNat : Int)) = i := by omega
    show some ((i.toNat : Int)) = some i
    rw [hval]

/-- A month never has more than 31 days. -/
theorem daysInMonth_le (y m : Nat) : daysInMonth y m ≤ 31 := by
  unfold daysInMonth
  split_ifs <;> omega

/-- The canonical digits of a four-digit year, char by char. -/
theorem natRepr_four_digits (y : Nat) (h1 : 1000 ≤ y) (h2 : y ≤ 9999) :
    natRepr y = [Nat.digitChar (y / 1000), Nat.digitChar (y / 100 % 10),
      Nat.digitChar (y / 10 % 10), Nat.digitChar (y % 10)] := by
  rw [natRepr_ge10 y (by omega), natRepr_ge10 (y / 10) (by omega),
    natRepr_ge10 (y / 10 / 10) (by omega), natRepr_lt10 (y / 10 / 10 / 10) (by omega)]
  simp [Nat.div_div_eq_div_mul]

/-- The `%Y` directive consumes exactly the four digits of a four-digit
year and yields that year. -/
theorem yAlt_natRepr (y : Nat) (h1 : 1000 ≤ y) (h2 : y ≤ 9999) (rest : Str) :
    yAlt (natRepr y ++ rest) = [(y, rest)] := by
  rw [natRepr_four_digits y h1 h2]
  have f1 := digitChar_facts (y / 1000) (by omega)
  have f2 := digitChar_facts (y / 100 % 10) (by omega)
  have f3 := digitChar_facts (y / 10 % 10) (by omega)
  have f4 := digitChar_facts (y % 10) (by omega)
  simp only [List.cons_append, List.nil_append, yAlt]
  rw [if_pos (by simp [f1.1, f2.1, f3.1, f4.1])]
  simp only [f1.2.1, f2.2.1, f3.2.1, f4.2.1]
  have hval : ((y / 1000 * 10 + y / 100 % 10) * 10 + y / 10 % 10) * 10 + y % 10 = y := by
    omega
  rw [hval]

/-- The `%m` directive reads the two-digit month first. -/
theorem mAlts_pad2 (mo : Nat) (h1 : 1 ≤ mo) (h2 : mo ≤ 12) (rest : Str) :
    ∃ tail, mAlts (pad2 mo ++ rest) = (mo, rest) :: tail := by
  interval_cases mo <;> exact ⟨_, rfl⟩

/-- The `%d` directive reads the two-digit day first. -/
theorem dAlts_pad2 (d : Nat) (h1 : 1 ≤ d) (h2 : d ≤ 31) (rest : Str) :
    ∃ tail, dAlts (pad2 d ++ rest) = (d, rest) :: tail := by
  interval_cases d <;> exact ⟨_, rfl⟩

/-- The `%H` directive reads the two-digit hour first. -/
theorem hAlts_pad2 (h : Nat) (hh : h ≤ 23) (rest : Str) :
    ∃ tail, hAlts (pad2 h ++ rest) = (h, rest) :: tail := by
  interval_cases h <;> exact ⟨_, rfl⟩

/-- `findSome?` on a singleton. -/
theorem findSome?_singleton {α β : Type} (f : α → Option β) (a : α) :
    List.findSome? f [a] = f a := by
  cases h : f a <;> simp [List.findSome?, h]

/-- `findSome?` stops at the first success. -/
theorem findSome?_cons_of_some {α β : Type} {f : α → Option β} {a : α}
    (as : List α) {b : β} (h : f a = some b) :
    List.findSome? f (a :: as) = some b := by
  simp [List.findSome?, h]

/-- `strptime('%Y%m%d%H')` parses the canonical fixed-width serialization
of a valid reference time back to that time. -/
theorem strptime_canonical (t : PyDateTime) (h1 : 1000 ≤ t.year)
    (h2 : t.year ≤ 9999) (h3 : 1 ≤ t.month) (h4 : t.month ≤ 12)
    (h5 : 1 ≤ t.day) (h6 : t.day ≤ daysInMonth t.year t.month) (h7 : t.hour ≤ 23) :
    strptimeYmdH (natRepr t.year ++ (pad2 t.month ++ (pad2 t.day ++ pad2 t.hour))) =
      some t := by
  obtain ⟨tm, hm⟩ := mAlts_pad2 t.month h3 h4 (pad2 t.day ++ pad2 t.hour)
  obtain ⟨td, hd⟩ := dAlts_pad2 t.day h5 (le_trans h6 (daysInMonth_le _ _)) (pad2 t.hour)
  obtain ⟨th, hht⟩ := hAlts_pad2 t.hour h7 []
  rw [List.append_nil] at hht
  have hH : (hAlts (pad2 t.hour)).findSome?
      (fun hr => if hr.2 = ([] : Str) then
        some (t.year, t.month, t.day, hr.1) else none) =
      some (t.year, t.month, t.day, t.hour) := by
    rw [hht]
    exact findSome?_cons_of_some th (by simp)
  have hD : (dAlts (pad2 t.day ++ pad2 t.hour)).findSome?
      (fun dr => (hAlts dr.2).findSome?
        (fun hr => if hr.2 = ([] : Str) then
          some (t.year, t.month, dr.1, hr.1) else none)) =
      some (t.year, t.month, t.day, t.hour) := by
    rw [hd]
    refine findSome?_cons_of_some td ?_
    dsimp only []
    exact hH
  have hM : (mAlts (pad2 t.month ++ (pad2 t.day ++ pad2 t.hour))).findSome?
      (fun mr => (dAlts mr.2).findSome?
        (fun dr => (hAlts dr.2).findSome?
          (fun hr => if hr.2 = ([] : Str) then
            some (t.year, mr.1, dr.1, hr.1) else none))) =
      some (t.year, t.month, t.day, t.hour) := by
    rw [hm]
    refine findSome?_cons_of_some tm ?_
    dsimp only []
    exact hD
  unfold strptimeYmdH ymdhMatch
  rw [yAlt_natRepr t.year h1 h2, findSome?_singleton]
  dsimp only []
  rw [hM]
  dsimp only []
  rw [if_pos ⟨by omega, h5, h6⟩]

/-- The canonical form of an integer starts with a non-space character. -/
theorem intRepr_head (i : Int) :
    ∃ c tail, intRepr i = c :: tail ∧ isPySpace c = false := by
  by_cases hi : i < 0
  · exact ⟨'-', natRepr i.natAbs, by unfold intRepr; rw [if_pos hi], by decide⟩
  · obtain ⟨k, tail, hk, heq⟩ := natRepr_head i.toNat
    exact ⟨Nat.digitChar k, tail, by unfold intRepr; rw [if_neg hi, heq],
      (digitChar_facts k hk).2.2.1⟩

/-- The canonical form of an integer contains no colon. -/
theorem intRepr_no_colon (i : Int) : ':' ∉ intRepr i := by
  intro hmem
  unfold intRepr at hmem
  split_ifs at hmem with hi
  · rcases List.mem_cons.1 hmem with h | h
    · exact absurd h (by decide)
    · obtain ⟨k, hk, hc⟩ := natRepr_mem _ ':' h
      exact (digitChar_facts k hk).2.2.2.1 hc.symm
  · obtain ⟨k, hk, hc⟩ := natRepr_mem _ ':' hmem
    exact (digitChar_facts k hk).2.2.2.1 hc.symm

/-- Every character of a two-digit zero-padded field is a digit character. -/
theorem pad2_mem (n : Nat) :
    ∀ c ∈ pad2 n, ∃ k, k < 10 ∧ c = Nat.digitChar k := by
  unfold pad2
  split_ifs with h
  · intro c hc
    rcases List.mem_cons.1 hc with rfl | hc2
    · exact ⟨0, by omega, rfl⟩
    · exact natRepr_mem n c hc2
  · exact natRepr_mem n

/-- The serialized reference-time payload (everything after `d=`). -/
def refPayload (t : PyDateTime) : Str :=
  natRepr t.year ++ (pad2 t.month ++ (pad2 t.day ++ pad2 t.hour))

/-- `fmtRefTime` is the literal `d=` followed by the digit payload. -/
theorem fmtRefTime_shape (t : PyDateTime) :
    fmtRefTime t = ['d'] ++ '=' :: refPayload t := by
  unfold fmtRefTime refPayload
  rw [show lc "d=" = ['d', '='] from rfl]
  simp [List.append_assoc]

/-- Every character of the reference-time payload is a digit character. -/
theorem refPayload_mem (t : PyDateTime) :
    ∀ c ∈ refPayload t, ∃ k, k < 10 ∧ c = Nat.digitChar k := by
  intro c hc
  unfold refPayload at hc
  rcases List.mem_append.1 hc with h | h
  · exact natRepr_mem _ c h
  rcases List.mem_append.1 h with h2 | h2
  · exact pad2_mem _ c h2
  rcases List.mem_append.1 h2 with h3 | h3
  · exact pad2_mem _ c h3
  · exact pad2_mem _ c h3

/-- The reference-time payload contains no `=`. -/
theorem refPayload_no_eq (t : PyDateTime) : '=' ∉ refPayload t := by
  intro hmem
  obtain ⟨k, hk, hc⟩ := refPayload_mem t '=' hmem
  exact (digitChar_facts k hk).2.2.2.2.1 hc.symm

/-- The serialized reference-time field contains no colon. -/
theorem fmtRefTime_no_colon (t : PyDateTime) : ':' ∉ fmtRefTime t := by
  rw [fmtRefTime_shape]
  intro hmem
  rcases List.mem_append.1 hmem with h | h
  · exact absurd (List.mem_singleton.1 h) (by decide)
  rcases List.mem_cons.1 h with h2 | h2
  · exact absurd h2 (by decide)
  · obtain ⟨k, hk, hc⟩ := refPayload_mem t ':' h2
    exact (digitChar_facts k hk).2.2.2.1 hc.symm

/-- A string with non-whitespace first and last characters strips to
itself, and a trailing newline is stripped away. -/
theorem pyStrip_self (c0 : Char) (t0 : Str) (h0 : isPySpace c0 = false)
    (h1 : isPySpace ((c0 :: t0).getLast (by simp)) = false) :
    pyStrip (c0 :: t0) = c0 :: t0 ∧ pyStrip ((c0 :: t0) ++ ['\n']) = c0 :: t0 := by
  cases t0 with
  | nil =>
    constructor
    · unfold pyStrip
      have hd1 : List.dropWhile isPySpace [c0] = [c0] := by
        simp [List.dropWhile_cons, h0]
      rw [hd1, show ([c0] : Str).reverse = [c0] from rfl, hd1]
      rfl
    · unfold pyStrip
      have hd1 : List.dropWhile isPySpace ([c0] ++ ['\n']) = [c0, '\n'] := by
        simp [List.dropWhile_cons, h0]
      rw [hd1, show ([c0, '\n'] : Str).reverse = ['\n', c0] from rfl]
      have hd2 : List.dropWhile isPySpace ['\n', c0] = [c0] := by
        rw [show (['\n', c0] : Str) = '\n' :: [c0] from rfl, List.dropWhile_cons]
        rw [show isPySpace '\n' = true from rfl]
        simp [List.dropWhile_cons, h0]
      rw [hd2]
      rfl
  | cons m ms =>
    have hlast : (c0 :: m :: ms).getLast (by simp) =
        (m :: ms).getLast (by simp) := List.getLast_cons (by simp)
    have hdecomp : m :: ms = (m :: ms).dropLast ++ [(m :: ms).getLast (by simp)] :=
      (List.dropLast_append_getLast (by simp)).symm
    rw [hlast] at h1
    have hs : c0 :: m :: ms =
        c0 :: (m :: ms).dropLast ++ [(m :: ms).getLast (by simp)] := by
      rw [List.cons_append, ← hdecomp]
    rw [hs]
    exact pyStrip_ends c0 _ _ h0 h1

/-! ## Claim theorems -/

/-- C1.  The claim says construction is free of cross-instance interference:
the step list must not depend on how many downloaders were constructed
before, and two successive constructions with identical arguments must give
identical, non-empty step lists.  The code violates this: `STEPS` holds
class-level `itertools.chain` iterators, and `list(...)` in `__init__`
exhausts the chain of the chosen resolution, so *every* later construction
at the same resolution computes an empty step list.  This theorem evaluates
the code at the failing input: the first construction at resolution 0.5
with the default horizon 168 yields a non-empty step list, any construction
after one at the same resolution yields `[]`, and in particular the second
of two constructions with identical arguments yields `[]` where the first
yielded 57 steps. -/
theorem c1_shared_chain_exhaustion :
    (∀ (st : StepsState) (cy1 cy2 : PyDateTime) (h1 h2 : Option Nat)
        (m1 m2 : Option Nat) (res : Res),
      (mkDownloader (mkDownloader st cy1 h1 res m1).2 cy2 h2 res m2).1.steps = []) ∧
    (mkDownloader stepsFresh ⟨2026, 10, 12, 0⟩ (some 168) .r0p50 none).1.steps.length = 57 ∧
    (mkDownloader (mkDownloader stepsFresh ⟨2026, 10, 12, 0⟩ (some 168) .r0p50 none).2
        ⟨2026, 10, 12, 0⟩ (some 168) .r0p50 none).1.steps = [] := by
  refine ⟨?_, by decide, by decide⟩
  intro st cy1 cy2 h1 h2 m1 m2 res
  show (mkDownloader (fun r => if r = res then [] else st r) cy2 h2 res m2).1.steps = []
  simp only [mkDownloader, if_pos rfl]
  cases m2 <;> cases h2 <;> simp

/-- C3.  For every record `r` in an `IdxCollection`, `byterange r` returns
`(r.bytes_start, successor.bytes_start - 1)` when a record with ordinal
`r.index + 1` is in the collection, and `(r.bytes_start, open)` otherwise;
concretely, for the records with ordinals 1, 2, 3 and offsets 0, 73573,
263118, the ranges are `(0, 73572)`, `(73573, 263117)`, `(263118, open)`. -/
theorem c3_byterange_derivation :
    (∀ (c : IdxCollection) (r : IdxField),
      c.byterange r =
        (r.bytes_start, (dictGet (r.index + 1) c.i_to_idx).map (fun s => s.bytes_start - 1))) ∧
    collGMP.byterange idxGust = (0, some 73572) ∧
    collGMP.byterange idxMslet = (73573, some 263117) ∧
    collGMP.byterange idxPres = (263118, none) := by
  refine ⟨?_, by decide, by decide, by decide⟩
  intro c r
  unfold IdxCollection.byterange
  cases h : dictGet (r.index + 1) c.i_to_idx <;> simp [h]

/-- C10.  `byterange` never raises, and a record without a successor
ordinal in the collection gets an open-ended range whether or not the
record itself is a member: the statement quantifies over every collection
and every field, with no membership requirement.  (In the embedding
`byterange` is a total pure function of the collection and the field,
mirroring that the Python method catches the only `KeyError` its body can
raise and only reads `i_to_idx`, so it can neither fail nor mutate the
collection.) -/
theorem c10_byterange_nonmember_open (c : IdxCollection) (r : IdxField)
    (h : dictGet (r.index + 1) c.i_to_idx = none) :
    c.byterange r = (r.bytes_start, none) := by
  unfold IdxCollection.byterange
  simp [h]

/-- A record with ordinal 99 was never added to `collGMP`; `byterange`
still answers with its start offset and an open end. -/
theorem c10_byterange_nonmember_open_witness :
    dictGet ((99 : Int) + 1) collGMP.i_to_idx = none ∧
      collGMP.byterange ⟨99, 500, ⟨2000, 1, 1, 0⟩, lc "TMP", lc "sfc", lc "anl"⟩ =
        (500, none) :=
  ⟨by decide,
   c10_byterange_nonmember_open collGMP
     ⟨99, 500, ⟨2000, 1, 1, 0⟩, lc "TMP", lc "sfc", lc "anl"⟩ (by decide)⟩

/-- Evaluation of the constructor once the split of the line is known to
have at least six fields. -/
theorem mkIdxField_parts (s f0 f1 f2 f3 f4 f5 : Str) (rest : List Str)
    (hsplit : splitOnChar ':' (pyStrip s) = f0 :: f1 :: f2 :: f3 :: f4 :: f5 :: rest) :
    mkIdxField s =
      match pyInt f0, pyInt f1 with
      | some index, some bytes_start =>
        match (splitOnChar '=' f2).get? 1 with
        | some seg =>
          match strptimeYmdH seg with
          | some reftime => some ⟨index, bytes_start, reftime, f3, f4, f5⟩
          | none => none
        | none => none
      | _, _ => none := by
  unfold mkIdxField
  rw [hsplit]
  rfl

/-- C4.  Parsing is a lossless round trip.  A well-formed index line —
six colon-delimited fields with a trailing colon, where the ordinal and
byte-offset fields are canonical decimal integers, the reference-time field
is the fixed `d=YYYYMMDDHH` encoding of a valid date with a four-digit
year, and the free-text fields contain no colon — is exactly
`mkWfLine i b t v l iv` for such field values.  Constructing an `IdxField`
from the line (with or without a trailing newline, which `strip` removes)
succeeds, and re-serializing with `str` reproduces the original line,
trailing colon included. -/
theorem c4_parse_roundtrip (i b : Int) (t : PyDateTime) (v l iv : Str)
    (hy1 : 1000 ≤ t.year) (hy2 : t.year ≤ 9999)
    (hm1 : 1 ≤ t.month) (hm2 : t.month ≤ 12)
    (hd1 : 1 ≤ t.day) (hd2 : t.day ≤ daysInMonth t.year t.month)
    (hh : t.hour ≤ 23)
    (hv : ':' ∉ v) (hl : ':' ∉ l) (hiv : ':' ∉ iv) :
    mkIdxField (mkWfLine i b t v l iv) = some ⟨i, b, t, v, l, iv⟩ ∧
    mkIdxField (mkWfLine i b t v l iv ++ ['\n']) = some ⟨i, b, t, v, l, iv⟩ ∧
    idxStr ⟨i, b, t, v, l, iv⟩ = mkWfLine i b t v l iv := by
  have hline : mkWfLine i b t v l iv =
      intRepr i ++ ':' :: (intRepr b ++ ':' :: (fmtRefTime t ++ ':' ::
        (v ++ ':' :: (l ++ ':' :: (iv ++ ':' :: []))))) := by
    simp [mkWfLine, joinSep, List.append_assoc]
  obtain ⟨cA, tA, hAeq, hAns⟩ := intRepr_head i
  have hline2 : mkWfLine i b t v l iv =
      cA :: (tA ++ ':' :: (intRepr b ++ ':' :: (fmtRefTime t ++ ':' ::
        (v ++ ':' :: (l ++ ':' :: iv))))) ++ [':'] := by
    rw [hline, hAeq]
    simp [List.append_assoc]
  have hsplit : splitOnChar ':' (mkWfLine i b t v l iv) =
      [intRepr i, intRepr b, fmtRefTime t, v, l, iv, []] := by
    rw [hline]
    rw [splitOnChar_append ':' (intRepr i) _ (intRepr_no_colon i),
        splitOnChar_append ':' (intRepr b) _ (intRepr_no_colon b),
        splitOnChar_append ':' (fmtRefTime t) _ (fmtRefTime_no_colon t),
        splitOnChar_append ':' v _ hv,
        splitOnChar_append ':' l _ hl,
        splitOnChar_append ':' iv _ hiv]
    rfl
  have hseg : (splitOnChar '=' (fmtRefTime t)).get? 1 = some (refPayload t) := by
    rw [fmtRefTime_shape,
      splitOnChar_append '=' ['d'] _ (by decide),
      splitOnChar_no_sep '=' (refPayload t) (refPayload_no_eq t)]
    rfl
  have hparse : ∀ (s : Str), pyStrip s = mkWfLine i b t v l iv →
      mkIdxField s = some ⟨i, b, t, v, l, iv⟩ := by
    intro s hs
    rw [mkIdxField_parts s (intRepr i) (intRepr b) (fmtRefTime t) v l iv [[]]
      (by rw [hs, hsplit])]
    rw [pyInt_intRepr i, pyInt_intRepr b]
    dsimp only []
    rw [hseg]
    dsimp only []
    rw [show refPayload t =
        natRepr t.year ++ (pad2 t.month ++ (pad2 t.day ++ pad2 t.hour)) from rfl,
      strptime_canonical t hy1 hy2 hm1 hm2 hd1 hd2 hh]
  refine ⟨hparse _ ?_, hparse _ ?_, rfl⟩
  · rw [hline2]
    exact (pyStrip_ends cA _ ':' hAns (by decide)).1
  · rw [hline2]
    exact (pyStrip_ends cA _ ':' hAns (by decide)).2

/-- A concrete round trip through the test suite's UGRD index line. -/
theorem c4_parse_roundtrip_witness :
    mkIdxField (mkWfLine 6 637816 ⟨1995, 10, 30, 0⟩ (lc "UGRD")
        (lc "30 m above ground") (lc "165 hour fcst")) =
      some ⟨6, 637816, ⟨1995, 10, 30, 0⟩, lc "UGRD", lc "30 m above ground",
        lc "165 hour fcst"⟩ ∧
    idxStr ⟨6, 637816, ⟨1995, 10, 30, 0⟩, lc "UGRD", lc "30 m above ground",
        lc "165 hour fcst"⟩ =
      mkWfLine 6 637816 ⟨1995, 10, 30, 0⟩ (lc "UGRD") (lc "30 m above ground")
        (lc "165 hour fcst") :=
  have h := c4_parse_roundtrip 6 637816 ⟨1995, 10, 30, 0⟩ (lc "UGRD")
    (lc "30 m above ground") (lc "165 hour fcst")
    (by decide) (by decide) (by decide) (by decide) (by decide) (by decide)
    (by decide) (by decide) (by decide) (by decide)
  ⟨h.1, h.2.2⟩

/-- C9, counterexample.  The claim says parsing fails whenever the
reference-time field is not the fixed 10-digit `d=YYYYMMDDHH` encoding.
It does not: the constructor takes whatever stands between the first and
second `=` (the prefix letter is never checked) and strptime's per-field
regexes accept one-digit months, days and hours, so the 7-digit
`d=1995111` and the mis-prefixed `e=1995103000` both parse successfully
even though neither is the fixed encoding. -/
theorem c9_nonfixed_reftime_still_parses :
    isFixedRefTime (lc "e=1995103000") = false ∧
    isFixedRefTime (lc "d=1995111") = false ∧
    (mkIdxField (lc "1:0:e=1995103000:UGRD:surface:anl:")).isSome = true ∧
    (mkIdxField (lc "1:0:d=1995111:UGRD:surface:anl:")).isSome = true :=
  ⟨by decide, by decide, by decide, by decide⟩

/-- C9, amended.  Construction of an `IdxField` from one line of index
text fails exactly when: fewer than six colon-separated fields are present
after stripping; or the ordinal or byte-offset field is not a Python
integer; or the reference-time field has no `=`; or the segment between
the first and second `=` is rejected by `strptime('%Y%m%d%H')` (which
accepts the fixed 10-digit `YYYYMMDDHH` encoding of any valid date, but
also some shorter variants with one-digit month, day or hour).  In
particular no well-formed line fails, and every line malformed in one of
these ways does. -/
theorem c9_parse_failure_iff (line : Str) :
    mkIdxField line = none ↔
      ((splitOnChar ':' (pyStrip line)).length < 6 ∨
        pyInt ((splitOnChar ':' (pyStrip line)).getD 0 []) = none ∨
        pyInt ((splitOnChar ':' (pyStrip line)).getD 1 []) = none ∨
        (splitOnChar '=' ((splitOnChar ':' (pyStrip line)).getD 2 [])).length < 2 ∨
        strptimeYmdH
          ((splitOnChar '=' ((splitOnChar ':' (pyStrip line)).getD 2 [])).getD 1 []) =
          none) := by
  rcases hsp : splitOnChar ':' (pyStrip line) with
      _ | ⟨f0, _ | ⟨f1, _ | ⟨f2, _ | ⟨f3, _ | ⟨f4, _ | ⟨f5, rest⟩⟩⟩⟩⟩⟩
  case nil | cons.nil | cons.cons.nil | cons.cons.cons.nil
      | cons.cons.cons.cons.nil | cons.cons.cons.cons.cons.nil =>
    · constructor
      · intro _
        left
        simp
      · intro _
        unfold mkIdxField
        rw [hsp]
        rfl
  · rw [mkIdxField_parts line f0 f1 f2 f3 f4 f5 rest hsp]
    simp only [List.getD_cons_zero, List.getD_cons_succ, List.length_cons]
    have h6 : ¬(rest.length + 1 + 1 + 1 + 1 + 1 + 1 < 6) := by omega
    cases h0 : pyInt f0 with
    | none => simp [h6]
    | some i0 =>
      cases h1 : pyInt f1 with
      | none => simp [h6]
      | some i1 =>
        cases hseg : (splitOnChar '=' f2).get? 1 with
        | none =>
          have hlen : (splitOnChar '=' f2).length ≤ 1 := List.get?_eq_none.1 hseg
          exact iff_of_true rfl (Or.inr (Or.inr (Or.inr (Or.inl (by omega)))))
        | some seg =>
          have hlen : 2 ≤ (splitOnChar '=' f2).length := by
            by_contra hcon
            rw [List.get?_eq_none.2 (by omega)] at hseg
            exact absurd hseg (by simp)
          have hgetd : (splitOnChar '=' f2).getD 1 [] = seg := by
            rw [List.getD_eq_getD_get?, hseg]
            rfl
          have hnl : ¬(splitOnChar '=' f2).length < 2 := by omega
          dsimp only []
          cases hstr : strptimeYmdH seg with
          | none =>
            exact iff_of_true rfl
              (Or.inr (Or.inr (Or.inr (Or.inr (by rw [hgetd]; exact hstr)))))
          | some t =>
            refine iff_of_false (fun hcon => Option.noConfusion hcon) ?_
            rintro (h | h | h | h | h)
            · exact h6 h
            · exact Option.noConfusion h
            · exact Option.noConfusion h
            · exact hnl h
            · rw [hgetd, hstr] at h; exact Option.noConfusion h

/-- C5.  `filter` matches the compiled pattern anchored at the start of each
record's canonical textual form and returns the matches in insertion order:
the filtered list is exactly `values` filtered by the anchored prefix match
(hence a sublist of `values`, preserving insertion order, which is ordinal
order for well-formed indices).  Concretely, on the records
`[GUST@1, MSLET@2, PRES@3]` the pattern `.*PRES.*` returns exactly the PRES
record and `.*(PRES|GUST)+:.*` returns GUST then PRES, in ordinal order.
The final conjuncts pin down the anchoring mode on the PRES line: a bare
`PRES` pattern does not match (so `filter` is not a search), while
`.*PRES` matches even though it does not cover the whole line (so `filter`
is a prefix match, not a full match). -/
theorem c5_filter_anchored_insertion_order :
    (∀ (c : IdxCollection) (r : Regex),
      c.filterIdx r = c.values.filter (fun f => rMatch r (idxStr f))) ∧
    (∀ (c : IdxCollection) (r : Regex), (c.filterIdx r).Sublist c.values) ∧
    collGMP.filterIdx patPres = [idxPres] ∧
    collGMP.filterIdx patPresGust = [idxGust, idxPres] ∧
    (rMatch (rlit (lc "PRES")) (idxStr idxPres) = false ∧
      rSearch (rlit (lc "PRES")) (idxStr idxPres) = true) ∧
    (rMatch (.seq dotStar (rlit (lc "PRES"))) (idxStr idxPres) = true ∧
      rFull (.seq dotStar (rlit (lc "PRES"))) (idxStr idxPres) = false) := by
  refine ⟨fun c r => rfl, fun c r => List.filter_sublist _,
    by decide, by decide, ⟨by decide, by decide⟩, ⟨by decide, by decide⟩⟩

/-- A call of the wrapped function only evaluates attempts
`k, k+1, ..., k+s` when entered with `attempts_remaining = s + 1`. -/
theorem retryAux_congr {E A : Type} (s : Nat) :
    ∀ (k : Nat) (f g : Nat → Except E A),
      (∀ j, k ≤ j → j ≤ k + s → f j = g j) →
        retryAux f k (s + 1) = retryAux g k (s + 1) := by
  induction s with
  | zero =>
    intro k f g h
    simp only [retryAux, h k le_rfl (by omega)]
    cases g k <;> simp
  | succ s ih =>
    intro k f g h
    simp only [retryAux, h k le_rfl (by omega)]
    cases g k with
    | ok v => rfl
    | error e =>
      simp only [Nat.succ_ne_zero, if_false]
      exact ih (k + 1) f g (fun j h1 h2 => h j (by omega) (by omega))

/-- Every call of the wrapped function exits with `attempts_remaining = 5`. -/
theorem retryAux_resets {E A : Type} (f : Nat → Except E A) :
    ∀ (s k : Nat), (retryAux f k s).2 = 5 := by
  intro s
  induction s with
  | zero => intro k; unfold retryAux; cases f k <;> rfl
  | succ s ih =>
    intro k
    unfold retryAux
    cases f k with
    | ok v => rfl
    | error e =>
      by_cases hs : s = 0
      · simp [hs]
      · simp only [hs, if_false]; exact ih (k + 1)

/-- C6.  The retried fetch, entered in its canonical state: four failures
followed by a success on the fifth attempt return the successful result;
five consecutive failures surface the fifth error, and no sixth attempt is
made (the call's outcome depends only on attempts 0-4); and in every case
the call exits with the retry budget restored to 5, so the next call again
starts with five attempts (retry state is per-call). -/
theorem c6_retry_five_attempts (E A : Type) :
    (∀ (f : Nat → Except E A) (es : Nat → E) (v : A),
      (∀ k, k < 4 → f k = .error (es k)) → f 4 = .ok v →
        retryCall f = (.ok v, 5)) ∧
    (∀ (f : Nat → Except E A) (es : Nat → E),
      (∀ k, k ≤ 4 → f k = .error (es k)) →
        retryCall f = (.error (es 4), 5)) ∧
    (∀ (f g : Nat → Except E A),
      (∀ k, k ≤ 4 → f k = g k) → retryCall f = retryCall g) ∧
    (∀ (f : Nat → Except E A), (retryCall f).2 = 5) := by
  refine ⟨?_, ?_, ?_, fun f => retryAux_resets f 5 0⟩
  · intro f es v h h5
    simp [retryCall, retryAux, h 0 (by omega), h 1 (by omega), h 2 (by omega),
      h 3 (by omega), h5]
  · intro f es h
    simp [retryCall, retryAux, h 0 (by omega), h 1 (by omega), h 2 (by omega),
      h 3 (by omega), h 4 le_rfl]
  · intro f g h
    exact retryAux_congr 4 0 f g (fun j _ hj => h j hj)

/-- Concrete runs of the retried fetch: failures on attempts 0-3 and a
success on attempt 4 return the success with the budget back at 5; failures
on all of attempts 0-4 surface the final error with the budget back at 5. -/
theorem c6_retry_five_attempts_witness :
    retryCall (fun k => if k < 4 then (.error k : Except Nat Nat) else .ok 7) =
        (.ok 7, 5) ∧
      retryCall (fun k => (.error k : Except Nat Nat)) = (.error 4, 5) :=
  ⟨(c6_retry_five_attempts Nat Nat).1 _ (fun k => k) 7
      (fun k hk => by simp [hk]) (by simp),
   (c6_retry_five_attempts Nat Nat).2.1 _ (fun k => k) (fun k _ => rfl)⟩

set_option maxRecDepth 10000 in
/-- Each resolution's fresh base schedule is strictly increasing. -/
theorem baseSchedule_pairwise (res : Res) :
    List.Pairwise (· < ·) (baseSchedule res) := by
  cases res <;> decide

/-- C7.  For a downloader built from the fresh base schedule, the
constructed step list contains exactly the base-schedule steps that are
evenly divisible by `min_step` (when one is configured) and at most
`horizon` (when one is configured), in ascending order with no duplicates.
(A configured `min_step` is assumed positive: `min_step=0` would raise
`ZeroDivisionError` in the construction itself.) -/
theorem c7_steps_filtered_sorted (cycle : PyDateTime) (res : Res)
    (horizon min_step : Option Nat) (_hm : ∀ m ∈ min_step, 0 < m) :
    (∀ i, i ∈ (mkDownloader stepsFresh cycle horizon res min_step).1.steps ↔
        i ∈ baseSchedule res ∧ (∀ m ∈ min_step, m ∣ i) ∧ (∀ h ∈ horizon, i ≤ h)) ∧
    List.Sorted (· < ·) (mkDownloader stepsFresh cycle horizon res min_step).1.steps ∧
    (mkDownloader stepsFresh cycle horizon res min_step).1.steps.Nodup := by
  have hsorted : ∀ l : List Nat, List.Pairwise (· < ·) l →
      List.Sorted (· < ·) l ∧ l.Nodup :=
    fun l hl => ⟨hl, hl.imp (fun hab => ne_of_lt hab)⟩
  have hbase := baseSchedule_pairwise res
  cases hmin : min_step with
  | none =>
    cases hhor : horizon with
    | none =>
      refine ⟨fun i => ?_, hsorted _ (by simpa [mkDownloader, stepsFresh] using hbase)⟩
      simp [mkDownloader, stepsFresh]
    | some h =>
      refine ⟨fun i => ?_, hsorted _ ?_⟩
      · simp [mkDownloader, stepsFresh, List.mem_filter]
      · simpa [mkDownloader, stepsFresh] using hbase.filter _
  | some m =>
    cases hhor : horizon with
    | none =>
      refine ⟨fun i => ?_, hsorted _ ?_⟩
      · simp [mkDownloader, stepsFresh, List.mem_filter,
          Nat.dvd_iff_mod_eq_zero]
      · simpa [mkDownloader, stepsFresh] using hbase.filter _
    | some h =>
      refine ⟨fun i => ?_, hsorted _ ?_⟩
      · simp only [mkDownloader, stepsFresh, List.mem_filter, decide_eq_true_eq,
          Option.mem_def, Option.some.injEq, forall_eq_apply_imp_iff,
          Nat.dvd_iff_mod_eq_zero]
        constructor
        · rintro ⟨⟨hb, hdvd⟩, hle⟩
          exact ⟨hb, fun x hx => by cases hx; exact hdvd, fun x hx => by cases hx; exact hle⟩
        · rintro ⟨hb, hdvd, hle⟩
          exact ⟨⟨hb, hdvd m rfl⟩, hle h rfl⟩
      · simpa [mkDownloader, stepsFresh] using (hbase.filter _).filter _

/-- A concrete plan: resolution 0.5, horizon 24, minimum step 6.  Step 12
is retained (in the base schedule, divisible by 6, within the horizon) and
the whole step list is ascending without duplicates. -/
theorem c7_steps_filtered_sorted_witness :
    (12 ∈ (mkDownloader stepsFresh ⟨2026, 1, 1, 6⟩ (some 24) .r0p50 (some 6)).1.steps ↔
      12 ∈ baseSchedule .r0p50 ∧ (∀ m ∈ (some 6 : Option Nat), m ∣ 12) ∧
        (∀ h ∈ (some 24 : Option Nat), 12 ≤ h)) ∧
    List.Sorted (· < ·)
      (mkDownloader stepsFresh ⟨2026, 1, 1, 6⟩ (some 24) .r0p50 (some 6)).1.steps ∧
    (mkDownloader stepsFresh ⟨2026, 1, 1, 6⟩ (some 24) .r0p50 (some 6)).1.steps.Nodup := by
  have h := c7_steps_filtered_sorted ⟨2026, 1, 1, 6⟩ .r0p50 (some 24) (some 6)
    (by intro m hm; simp only [Option.mem_def, Option.some.injEq] at hm; omega)
  exact ⟨h.1 12, h.2.1, h.2.2⟩

/-- Every action `exists()` emits is a HEAD probe. -/
theorem probeAll_heads (net : Str → Nat) :
    ∀ (us : List Str), ∀ a ∈ (probeAll net us).1, ∃ u, a = .head u := by
  intro us
  induction us with
  | nil => intro a ha; simp [probeAll] at ha
  | cons u us ih =>
    intro a ha
    by_cases h : net u = 200
    · simp only [probeAll, if_pos h, List.mem_cons] at ha
      rcases ha with rfl | ha
      · exact ⟨u, rfl⟩
      · exact ih a ha
    · simp only [probeAll, if_neg h, List.mem_singleton] at ha
      exact ⟨u, ha⟩

/-- The early-exit probe loop returns true exactly when every URL answers
with status 200. -/
theorem probeAll_eq_all (net : Str → Nat) :
    ∀ (us : List Str), (probeAll net us).2 = true ↔ ∀ u ∈ us, net u = 200 := by
  intro us
  induction us with
  | nil => simp [probeAll]
  | cons u us ih =>
    by_cases h : net u = 200
    · simp [probeAll, if_pos h, ih, h]
    · simp [probeAll, if_neg h, h]

/-- C8.  The existence check is all-or-nothing: `exists()` returns true
exactly when all `N` planned index URLs answer the HEAD probe with a
success status — so it returns false as soon as any one probe fails, even
when the other `N-1` succeed — and whenever it returns false, `download`
raises `DataNotAvailableError` with nothing but HEAD probes on the wire
(no index fetch and no data GET is attempted). -/
theorem c8_exists_all_or_nothing :
    (∀ (net : Str → Nat) (d : NomadsDownloader),
      existsCheck net d = true ↔ ∀ u ∈ d.idx_files, net u = 200) ∧
    (∀ (net : Str → Nat) (d : NomadsDownloader) (idxLines : Str → List Str)
        (fn ft : Option Str),
      existsCheck net d = false →
        (downloadRun d net idxLines fn ft).2 = .error .dataNotAvailable ∧
        ∀ a ∈ (downloadRun d net idxLines fn ft).1, ∃ u, a = .head u) := by
  constructor
  · intro net d
    exact probeAll_eq_all net d.idx_files
  · intro net d idxLines fn ft h
    unfold existsCheck at h
    have heq : downloadRun d net idxLines fn ft =
        ((probeAll net d.idx_files).1, .error .dataNotAvailable) := by
      unfold downloadRun
      simp [h]
    rw [heq]
    exact ⟨rfl, fun a ha => probeAll_heads net d.idx_files a ha⟩

/-- With one of the two index URLs unreachable, `exists()` is false and a
download surfaces `DataNotAvailableError`. -/
theorem c8_exists_all_or_nothing_witness :
    existsCheck netFirstOnly dlTwoSteps = false ∧
      (downloadRun dlTwoSteps netFirstOnly (fun _ => []) none none).2 =
        .error .dataNotAvailable :=
  ⟨by decide,
   (c8_exists_all_or_nothing.2 netFirstOnly dlTwoSteps (fun _ => []) none none
      (by decide)).1⟩

/-- C2, counterexample.  The claim says a download invoked with both a
merged filename and a per-step template fails with a configuration error
before any network call: no HTTP request is ever issued.  In the code,
however, `download` calls `self.exists()` *first*: with both names given
and the index present, the run does end in `ValueError`, but its network
trace already contains the HEAD probe of the index URL — an HTTP request
was issued. -/
theorem c2_head_probe_precedes_config_error :
    (downloadRun dlOneStep (fun _ => 200) (fun _ => [])
        (some (lc "out.grb2")) (some (lc "gfs.{step}.grb2"))).2 = .error .valueError ∧
    (downloadRun dlOneStep (fun _ => 200) (fun _ => [])
        (some (lc "out.grb2")) (some (lc "gfs.{step}.grb2"))).1 =
      [.head (dlOneStep.idx_files.getD 0 [])] := by
  exact ⟨rfl, rfl⟩

/-- C2, amended.  A download invoked with both a merged filename and a
per-step template never reaches a data fetch: it fails with `ValueError`
when all existence probes succeed, and with `DataNotAvailableError`
otherwise — but the HEAD existence probes are issued before the conflict
check, so the trace may contain HEAD requests (and nothing else). -/
theorem c2_conflict_fails_before_data_fetch (d : NomadsDownloader)
    (net : Str → Nat) (idxLines : Str → List Str) (fn ft : Option Str)
    (hfn : fn.isSome = true) (hft : ft.isSome = true) :
    ((downloadRun d net idxLines fn ft).2 = .error .valueError ∨
      (downloadRun d net idxLines fn ft).2 = .error .dataNotAvailable) ∧
    ∀ a ∈ (downloadRun d net idxLines fn ft).1, ∃ u, a = .head u := by
  cases h : (probeAll net d.idx_files).2 with
  | false =>
    have heq : downloadRun d net idxLines fn ft =
        ((probeAll net d.idx_files).1, .error .dataNotAvailable) := by
      unfold downloadRun
      simp [h]
    rw [heq]
    exact ⟨Or.inr rfl, fun a ha => probeAll_heads net d.idx_files a ha⟩
  | true =>
    have heq : downloadRun d net idxLines fn ft =
        ((probeAll net d.idx_files).1, .error .valueError) := by
      unfold downloadRun
      simp [h, hfn, hft]
    rw [heq]
    exact ⟨Or.inl rfl, fun a ha => probeAll_heads net d.idx_files a ha⟩

/-- A concrete conflicting invocation ends in an error with only HEAD
probes on the wire. -/
theorem c2_conflict_fails_before_data_fetch_witness :
    ((downloadRun dlOneStep (fun _ => 200) (fun _ => [])
        (some (lc "out.grb2")) (some (lc "gfs.{step}.grb2"))).2 = .error .valueError ∨
      (downloadRun dlOneStep (fun _ => 200) (fun _ => [])
          (some (lc "out.grb2")) (some (lc "gfs.{step}.grb2"))).2 =
        .error .dataNotAvailable) ∧
    ∀ a ∈ (downloadRun dlOneStep (fun _ => 200) (fun _ => [])
        (some (lc "out.grb2")) (some (lc "gfs.{step}.grb2"))).1, ∃ u, a = .head u :=
  c2_conflict_fails_before_data_fetch dlOneStep (fun _ => 200) (fun _ => [])
    (some (lc "out.grb2")) (some (lc "gfs.{step}.grb2")) rfl rfl

end Gribgrab
